import Mathlib

/-!
Verification of the `sarathy` agent runtime state layer.

This file gives a shallow embedding of the persistent conversation store
(`Session` / `SessionManager` from `src/sarathi/session/manager.py`) and of the
skill capability system (`SkillsLoader` / `SkillManager` from
`src/sarathy/agent/skills.py`), and proves or refutes the frozen claims about
them.

Modelling conventions:
* Python `dict` / `OrderedDict` objects are association lists with the exact
  CPython semantics of assignment (an existing key keeps its position, a new key
  is appended at the end), `move_to_end`, and `popitem(last=False)`.
* Python strings are Lean `String`s; the handful of string operations the code
  uses (`split`, `strip`, `startswith`, `replace`, `join`) are re-implemented by
  structural recursion over the character list so that every proof obligation
  can be discharged by kernel evaluation.
* `datetime.now()` values are abstract strings threaded as explicit `now`
  arguments; `datetime` round-trips through `isoformat` are the identity.
* External libraries that the code calls (`yaml.safe_load`, `json.loads`,
  `shutil.which`, `os.environ`) are parameters of the corresponding functions.
* A JSONL session file is a list of already-parsed records (`FileLine`); the
  `json.dumps`/`json.loads` round trip of one line is the identity on records.
* Python exceptions are `Except` values.
-/

set_option autoImplicit false

namespace Sarathi

/-! ## Association lists with Python `dict` semantics -/

/-- First-match lookup: Python `d.get(k)` / `d[k]` / `k in d`. -/
def alookup {α : Type} : List (String × α) → String → Option α
  | [], _ => none
  | (k', v) :: rest, k => if k' = k then some v else alookup rest k

/-- Python `d[k] = v`: an existing key keeps its position in the insertion
order, a new key is appended at the end (CPython `dict` / `OrderedDict`). -/
def aset {α : Type} : List (String × α) → String → α → List (String × α)
  | [], k, v => [(k, v)]
  | (k', v') :: rest, k, v =>
    if k' = k then (k, v) :: rest else (k', v') :: aset rest k v

/-- Python `d.pop(k, None)` / `del d[k]`: drop the entry with the given key. -/
def aremove {α : Type} : List (String × α) → String → List (String × α)
  | [], _ => []
  | (k', v') :: rest, k => if k' = k then rest else (k', v') :: aremove rest k

/-- Model of `OrderedDict.move_to_end(k)`: the entry moves to the most-recently-used
position; a missing key leaves the map unchanged (the caller guards this). -/
def moveToEnd {α : Type} (m : List (String × α)) (k : String) : List (String × α) :=
  match alookup m k with
  | none => m
  | some v => aremove m k ++ [(k, v)]

/-! ## Python slice semantics -/

/-- Python `xs[i:]` for an `int` index: a negative start counts from the end,
and both directions clamp to the list. -/
def pySliceFrom {α : Type} (xs : List α) (i : Int) : List α :=
  if 0 ≤ i then xs.drop i.toNat
  else xs.drop ((xs.length : Int) + i).toNat

/-- Python `xs[-n:]` for a natural `n`.  Note the pitfall this inherits from
Python: `-0 == 0`, so `xs[-0:]` is the whole list, not the empty list. -/
def pyTakeLast {α : Type} (xs : List α) (n : Nat) : List α :=
  pySliceFrom xs (-(n : Int))

/-! ## Messages and sessions (`src/sarathi/session/manager.py`) -/

/-- One message record `{role, content, timestamp, optional: tool_calls,
tool_call_id, name}`.  `content` is optional because `get_history` reads it
with `m.get("content", "")`; the three trailing fields are optional keys. -/
structure Message where
  role : String
  content : Option String
  timestamp : String
  tool_calls : Option String
  tool_call_id : Option String
  name : Option String
deriving Repr, DecidableEq

/-- One entry of `get_history`'s output: `{"role": m["role"], "content":
m.get("content", "")}` plus whichever of `tool_calls`, `tool_call_id`, `name`
are present in the source message. -/
structure HistEntry where
  role : String
  content : String
  tool_calls : Option String
  tool_call_id : Option String
  name : Option String
deriving Repr, DecidableEq

/-- The projection step of `Session.get_history`. -/
def projectMessage (m : Message) : HistEntry :=
  { role := m.role
    content := m.content.getD ""
    tool_calls := m.tool_calls
    tool_call_id := m.tool_call_id
    name := m.name }

/-- The `Session` dataclass.  `last_consolidated` is an `Int` because `_load`
takes it verbatim from the file's metadata record. -/
structure Session where
  key : String
  messages : List Message
  created_at : String
  updated_at : String
  metadata : List (String × String)
  last_consolidated : Int
deriving Repr, DecidableEq

/-- Model of `Session(key=key)`: the freshly constructed empty session. -/
def freshSession (key now : String) : Session :=
  { key := key, messages := [], created_at := now, updated_at := now
    metadata := [], last_consolidated := 0 }

/-- Model of `Session.add_message`: append one message and touch `updated_at`. -/
def Session.add_message (s : Session) (role content now : String)
    (tool_calls tool_call_id nm : Option String) : Session :=
  { s with
    messages := s.messages ++
      [{ role := role, content := some content, timestamp := now
         tool_calls := tool_calls, tool_call_id := tool_call_id, name := nm }]
    updated_at := now }

/-- Model of `Session.clear`: drop all messages and reset the consolidation offset. -/
def Session.clear (s : Session) (now : String) : Session :=
  { s with messages := [], last_consolidated := 0, updated_at := now }

/-- The alignment loop of `get_history`:
`for i, m in enumerate(sliced): if m.get("role") == "user": sliced = sliced[i:]; break`.
It drops everything before the first user-role entry and — because the loop
falls through without touching `sliced` — keeps the list unchanged when no
user-role entry exists. -/
def alignToUser (xs : List Message) : List Message :=
  match xs.findIdx? (fun m => m.role == "user") with
  | some i => xs.drop i
  | none => xs

/-- Model of `Session.get_history(max_messages)`. -/
def Session.get_history (s : Session) (max_messages : Nat) : List HistEntry :=
  let unconsolidated := pySliceFrom s.messages s.last_consolidated
  let sliced := pyTakeLast unconsolidated max_messages
  (alignToUser sliced).map projectMessage

/-! ## Claim C1 -/

/-- Sample non-user message used in concrete counterexamples. -/
def mAsst : Message :=
  { role := "assistant", content := some "hi", timestamp := "t0"
    tool_calls := none, tool_call_id := none, name := none }

/-- Sample user message used in concrete witnesses. -/
def mUser : Message :=
  { role := "user", content := some "hello", timestamp := "t0"
    tool_calls := none, tool_call_id := none, name := none }

/-- A session whose unconsolidated tail contains no user-role message. -/
def c1Session : Session :=
  { key := "k", messages := [mAsst], created_at := "t0", updated_at := "t0"
    metadata := [], last_consolidated := 0 }

/-- Claim C1 counterexample: for a session whose retained slice contains no
user-role message at all, the claim says `get_history` returns the empty list,
but the alignment loop falls through without modifying the slice, so the whole
slice is returned (here, one assistant message). -/
theorem claim1_counterexample :
    (∀ m ∈ c1Session.messages, m.role ≠ "user") ∧
    c1Session.get_history 500 = [projectMessage mAsst] ∧
    c1Session.get_history 500 ≠ [] := by decide

/-- The retained slice of `get_history`, written the way the amended claim
reads: take the unconsolidated tail, keep its last `max_messages` entries
(everything when `max_messages = 0`, Python's `[-0:]`), then drop the leading
entries strictly before the first user-role message, keeping the slice whole
when it contains no user-role message at all. -/
def specRetained (msgs : List Message) (lc : Int) (mm : Nat) : List Message :=
  let tail := pySliceFrom msgs lc
  let kept := if mm = 0 then tail else tail.drop (tail.length - mm)
  if kept.any (fun m => m.role == "user") then
    kept.dropWhile (fun m => !(m.role == "user"))
  else kept

theorem pyTakeLast_eq {α : Type} (xs : List α) (mm : Nat) :
    pyTakeLast xs mm = if mm = 0 then xs else xs.drop (xs.length - mm) := by
  unfold pyTakeLast pySliceFrom
  rcases Nat.eq_zero_or_pos mm with h | h
  · subst h; simp
  · have h1 : ¬ (0 ≤ -(mm : Int)) := by omega
    have h2 : ((xs.length : Int) + -(mm : Int)).toNat = xs.length - mm := by omega
    simp [h1, h2, Nat.not_eq_zero_of_lt h]

theorem alignToUser_length_le (xs : List Message) :
    (alignToUser xs).length ≤ xs.length := by
  unfold alignToUser
  cases h : xs.findIdx? (fun m => m.role == "user") with
  | none => exact Nat.le_refl _
  | some i => rw [List.length_drop]; omega

theorem alignToUser_eq (xs : List Message) :
    alignToUser xs =
      if xs.any (fun m => m.role == "user") then
        xs.dropWhile (fun m => !(m.role == "user"))
      else xs := by
  unfold alignToUser
  cases h : xs.findIdx? (fun m => m.role == "user") with
  | none =>
    have hall := List.findIdx?_eq_none_iff.mp h
    have hany : xs.any (fun m => m.role == "user") = false :=
      List.any_eq_false.mpr (fun m hm => by simp [hall m hm])
    simp [hany]
  | some i =>
    obtain ⟨hlt, hidx⟩ := List.findIdx?_eq_some_iff_findIdx_eq.mp h
    have hw : List.findIdx (fun m => m.role == "user") xs < xs.length := by
      rw [hidx]; exact hlt
    have hany : xs.any (fun m => m.role == "user") = true := by
      rw [List.any_eq_true]
      refine ⟨_, List.getElem_mem hw, ?_⟩
      exact @List.findIdx_getElem _ (fun m => m.role == "user") xs hw
    rw [if_pos hany, List.dropWhile_eq_drop_findIdx_not]
    simp only [Bool.not_not]
    rw [hidx]

/-- Claim C1 (amended): `get_history` takes the unconsolidated tail
`messages[last_consolidated:]`, keeps its last `max_messages` entries (at most
`max_messages` of them whenever `max_messages ≥ 1`; with `max_messages = 0`
Python's `[-0:]` keeps the whole tail), then drops the leading entries strictly
before the first user-role message; if the retained slice contains no
user-role message at all it is returned in full, not replaced by the empty
list; each retained message is projected to `{role, content}` plus whichever
of `tool_calls`, `tool_call_id`, `name` are present. -/
theorem claim1_amended (s : Session) (mm : Nat) :
    s.get_history mm =
      (specRetained s.messages s.last_consolidated mm).map projectMessage ∧
    (1 ≤ mm → (s.get_history mm).length ≤ mm) := by
  constructor
  · show (alignToUser (pyTakeLast (pySliceFrom s.messages s.last_consolidated) mm)).map
        projectMessage = _
    unfold specRetained
    rw [pyTakeLast_eq, alignToUser_eq]
  · intro hmm
    show ((alignToUser (pyTakeLast (pySliceFrom s.messages s.last_consolidated) mm)).map
        projectMessage).length ≤ mm
    rw [pyTakeLast_eq, if_neg (by omega)]
    set tail := pySliceFrom s.messages s.last_consolidated with htail
    rw [List.length_map]
    calc (alignToUser (tail.drop (tail.length - mm))).length
        ≤ (tail.drop (tail.length - mm)).length := alignToUser_length_le _
      _ ≤ mm := by rw [List.length_drop]; omega

/-- Witness for the amended C1 at a concrete session and bound. -/
theorem claim1_witness :
    c1Session.get_history 500 =
      (specRetained c1Session.messages c1Session.last_consolidated 500).map
        projectMessage ∧
    (c1Session.get_history 500).length ≤ 500 :=
  ⟨(claim1_amended c1Session 500).1, (claim1_amended c1Session 500).2 (by decide)⟩

/-! ## Session files and `SessionManager` -/

/-- One parsed line of a JSONL session file: either the metadata record
(`_type == "metadata"`) or a message record. -/
inductive FileLine where
  | meta (key created_at updated_at : String) (metadata : List (String × String))
      (last_consolidated : Int)
  | msg (m : Message)
deriving Repr, DecidableEq

/-- The accumulator of `_load`'s line loop. -/
structure LoadAcc where
  messages : List Message
  metadata : List (String × String)
  created_at : Option String
  last_consolidated : Int
deriving Repr, DecidableEq

/-- The line loop of `SessionManager._load`: a metadata record overwrites the
collected `metadata`, `created_at` (only when non-empty, mirroring
`if data.get("created_at")`) and `last_consolidated`; any other record is
appended to `messages`. -/
def loadLines : LoadAcc → List FileLine → LoadAcc
  | acc, [] => acc
  | acc, .meta _ ca _ md lc :: rest =>
    loadLines { acc with metadata := md
                         created_at := if ca = "" then none else some ca
                         last_consolidated := lc } rest
  | acc, .msg m :: rest =>
    loadLines { acc with messages := acc.messages ++ [m] } rest

/-- The `Session(...)` constructed at the end of `SessionManager._load`:
`updated_at` is *not* read back from the file, so it falls back to the
dataclass default `datetime.now()`. -/
def loadFile (key : String) (lines : List FileLine) (now : String) : Session :=
  let acc := loadLines { messages := [], metadata := [], created_at := none,
                         last_consolidated := 0 } lines
  { key := key, messages := acc.messages, created_at := acc.created_at.getD now
    updated_at := now, metadata := acc.metadata
    last_consolidated := acc.last_consolidated }

/-- The mutable state of one `SessionManager`: the per-workspace sessions
directory, the legacy global sessions directory, and the LRU cache, each keyed
by session key. -/
structure SMState where
  disk : List (String × List FileLine)
  legacy : List (String × List FileLine)
  cache : List (String × Session)
deriving Repr, DecidableEq

/-- Model of `SessionManager._load`: if the workspace file is absent but a legacy file
exists, move it to the workspace path (one-time migration), then parse the
file if one is present. -/
def smLoad (st : SMState) (key now : String) : Option Session × SMState :=
  let st1 :=
    match alookup st.disk key with
    | some _ => st
    | none =>
      match alookup st.legacy key with
      | some f => { st with disk := aset st.disk key f
                            legacy := aremove st.legacy key }
      | none => st
  match alookup st1.disk key with
  | none => (none, st1)
  | some f => (some (loadFile key f now), st1)

/-- Model of `SessionManager.get_or_create`: cache hit moves the entry to the
most-recently-used end; a miss loads from disk or constructs an empty session,
inserts it, and evicts the least-recently-used entry if the cache now exceeds
`max_cache_size`. -/
def get_or_create (st : SMState) (key now : String) (max_cache_size : Nat) :
    Session × SMState :=
  match alookup st.cache key with
  | some s => (s, { st with cache := moveToEnd st.cache key })
  | none =>
    let p := smLoad st key now
    let session := p.1.getD (freshSession key now)
    let cache1 := aset p.2.cache key session
    let cache2 := if max_cache_size < cache1.length then cache1.drop 1 else cache1
    (session, { p.2 with cache := cache2 })

/-- Model of `SessionManager.save`: truncate to the most recent `max_session_messages`
when over the limit (resetting `last_consolidated` to 0), write the metadata
record followed by one line per retained message, and update the cache entry
in place.  The returned `Session` is the in-place-mutated argument. -/
def save (st : SMState) (s : Session) (max_session_messages : Nat) :
    Session × SMState :=
  let msgs := if max_session_messages < s.messages.length then
      pyTakeLast s.messages max_session_messages
    else s.messages
  let lc : Int := if max_session_messages < s.messages.length then 0
    else s.last_consolidated
  let s' := { s with messages := msgs, last_consolidated := lc }
  let fileLines := FileLine.meta s.key s.created_at s.updated_at s.metadata lc
    :: msgs.map FileLine.msg
  (s', { st with disk := aset st.disk s.key fileLines
                 cache := aset st.cache s.key s' })

/-- Model of `SessionManager.invalidate`: drop the cache entry, leave disk alone. -/
def invalidate (st : SMState) (key : String) : SMState :=
  { st with cache := aremove st.cache key }

/-! ### Association-list lemmas -/

theorem alookup_aset_self {α : Type} (m : List (String × α)) (k : String) (v : α) :
    alookup (aset m k v) k = some v := by
  induction m with
  | nil => simp [aset, alookup]
  | cons e rest ih =>
    by_cases h : e.1 = k
    · simp [aset, h, alookup]
    · simp [aset, h, alookup, ih]

theorem alookup_aset_ne {α : Type} (m : List (String × α)) (k k' : String) (v : α)
    (h : k' ≠ k) : alookup (aset m k v) k' = alookup m k' := by
  have hkk : ¬ (k = k') := fun he => h he.symm
  induction m with
  | nil => simp [aset, alookup, hkk]
  | cons e rest ih =>
    by_cases he : e.1 = k
    · have hek : ¬ (e.1 = k') := by rw [he]; exact hkk
      simp [aset, he, alookup, hkk, hek]
    · simp [aset, he, alookup, ih]

theorem length_aset {α : Type} (m : List (String × α)) (k : String) (v : α) :
    (aset m k v).length =
      if (alookup m k).isSome then m.length else m.length + 1 := by
  induction m with
  | nil => simp [aset, alookup]
  | cons e rest ih =>
    by_cases h : e.1 = k
    · simp [aset, h, alookup]
    · simp only [aset, h, if_false, alookup, List.length_cons, ih]
      by_cases h2 : (alookup rest k).isSome <;> simp [h, h2]

/-! ### `_load` on files of the shape `save` writes -/

theorem loadLines_msgs (msgs : List Message) (acc : LoadAcc) :
    loadLines acc (msgs.map FileLine.msg) =
      { acc with messages := acc.messages ++ msgs } := by
  induction msgs generalizing acc with
  | nil => simp [loadLines]
  | cons m rest ih => simp [loadLines, ih]

/-- Parsing a file of the exact shape `save` writes (one metadata record, then
the messages) recovers the messages, metadata and stored offset. -/
theorem loadFile_save_shape (key k2 ca ua now : String)
    (md : List (String × String)) (lc : Int) (msgs : List Message) :
    loadFile key (FileLine.meta k2 ca ua md lc :: msgs.map FileLine.msg) now =
      { key := key, messages := msgs
        created_at := if ca = "" then now else ca
        updated_at := now, metadata := md, last_consolidated := lc } := by
  unfold loadFile
  rw [loadLines]
  rw [loadLines_msgs]
  by_cases h : ca = "" <;> simp [h]

/-! ## Claim C4 -/

/-- The invariant from the spec: `0 ≤ last_consolidated ≤ len(messages)`. -/
def SessionInv (s : Session) : Prop :=
  0 ≤ s.last_consolidated ∧ s.last_consolidated ≤ s.messages.length

instance (s : Session) : Decidable (SessionInv s) := by
  unfold SessionInv; infer_instance

/-- A session file whose metadata record carries `last_consolidated = 5` but
which contains no message line. -/
def c4file : List FileLine := [FileLine.meta "k" "t0" "t0" [] 5]

def c4st : SMState := { disk := [("k", c4file)], legacy := [], cache := [] }

def c4loaded : Session := loadFile "k" c4file "t1"

/-- Claim C4 counterexample: `_load` takes `last_consolidated` verbatim from
the file without validating it against the number of message lines, so loading
a file whose stored offset exceeds its message count yields a `Session`
violating `last_consolidated ≤ len(messages)`. -/
theorem claim4_counterexample :
    (smLoad c4st "k" "t1").1 = some c4loaded ∧ ¬ SessionInv c4loaded := by
  exact ⟨rfl, by decide⟩

/-- Claim C4 (amended): the invariant `0 ≤ last_consolidated ≤ len(messages)`
holds for a freshly created `Session` and is preserved by `add_message`,
`clear` and `save`; a `Session` built by `_load` satisfies it whenever the
file's metadata record carries an offset between 0 and the file's message
count (in particular for every file written by `save`), but `_load` itself
performs no validation, so an out-of-range stored offset is taken verbatim. -/
theorem claim4_amended :
    (∀ key now, SessionInv (freshSession key now)) ∧
    (∀ (s : Session) (role content now : String)
      (tc tci nm : Option String), SessionInv s →
      SessionInv (s.add_message role content now tc tci nm)) ∧
    (∀ (s : Session) (now : String), SessionInv (s.clear now)) ∧
    (∀ (st : SMState) (s : Session) (mm : Nat), SessionInv s →
      SessionInv (save st s mm).1) ∧
    (∀ (key ca ua now : String) (md : List (String × String)) (lc : Int)
      (msgs : List Message), 0 ≤ lc → lc ≤ msgs.length →
      SessionInv (loadFile key (FileLine.meta key ca ua md lc
        :: msgs.map FileLine.msg) now)) := by
  refine ⟨?_, ?_, ?_, ?_, ?_⟩
  · intro key now; exact ⟨le_refl 0, by simp [freshSession]⟩
  · intro s role content now tc tci nm h
    obtain ⟨h1, h2⟩ := h
    refine ⟨h1, ?_⟩
    simp only [Session.add_message, List.length_append, List.length_cons,
      List.length_nil]
    omega
  · intro s now; exact ⟨le_refl 0, by simp [Session.clear]⟩
  · intro st s mm h
    obtain ⟨h1, h2⟩ := h
    unfold save
    by_cases hc : mm < s.messages.length
    · simp only [if_pos hc]
      exact ⟨le_refl 0, by simp⟩
    · simp only [if_neg hc]
      exact ⟨h1, h2⟩
  · intro key ca ua now md lc msgs hl hr
    rw [loadFile_save_shape]
    exact ⟨hl, hr⟩

/-- Witness for the amended C4 at concrete inputs. -/
theorem claim4_witness :
    SessionInv ((freshSession "w4" "t0").add_message "user" "hi" "t1"
      none none none) ∧
    SessionInv (loadFile "w4" (FileLine.meta "w4" "" "" [] 1
      :: [mUser, mAsst].map FileLine.msg) "t2") :=
  ⟨claim4_amended.2.1 (freshSession "w4" "t0") "user" "hi" "t1" none none none
      (claim4_amended.1 "w4" "t0"),
   claim4_amended.2.2.2.2 "w4" "" "" "t2" [] 1 [mUser, mAsst]
      (by decide) (by decide)⟩

/-! ## Claim C5 -/

/-- A session over the (degenerate) limit `max_session_messages = 0`. -/
def c5sess : Session :=
  { key := "k5", messages := [mAsst], created_at := "t0", updated_at := "t0"
    metadata := [], last_consolidated := 1 }

/-- Claim C5 counterexample: with `max_session_messages = 0` and a non-empty
session, `len(messages) > max_session_messages` holds, so the claim says only
the most recent 0 messages are persisted; but the truncation slice is Python's
`messages[-0:]`, which is the whole list, so the full message is persisted. -/
theorem claim5_counterexample :
    c5sess.messages.length > 0 ∧
    alookup (save { disk := [], legacy := [], cache := [] } c5sess 0).2.disk "k5" =
      some [FileLine.meta "k5" "t0" "t0" [] 0, FileLine.msg mAsst] ∧
    (save { disk := [], legacy := [], cache := [] } c5sess 0).1.messages ≠ [] := by
  decide

/-- Claim C5 (amended): for `max_session_messages ≥ 1` (with limit 0 Python's
`[-0:]` slice keeps every message), saving a session with more than
`max_session_messages` messages persists exactly the most recent
`max_session_messages` of them, resets `last_consolidated` to 0, writes the
file as one metadata record followed by one line per retained message, and
updates the cache entry to the truncated session. -/
theorem claim5_amended (st : SMState) (s : Session) (mm : Nat)
    (h1 : 1 ≤ mm) (h2 : mm < s.messages.length) :
    (save st s mm).1.messages = s.messages.drop (s.messages.length - mm) ∧
    (save st s mm).1.messages.length = mm ∧
    (save st s mm).1.last_consolidated = 0 ∧
    alookup (save st s mm).2.disk s.key =
      some (FileLine.meta s.key s.created_at s.updated_at s.metadata 0
        :: (s.messages.drop (s.messages.length - mm)).map FileLine.msg) ∧
    alookup (save st s mm).2.cache s.key = some (save st s mm).1 := by
  have hmsgs : pyTakeLast s.messages mm =
      s.messages.drop (s.messages.length - mm) := by
    rw [pyTakeLast_eq, if_neg (by omega)]
  have hs1 : (save st s mm).1 =
      { s with messages := pyTakeLast s.messages mm, last_consolidated := 0 } := by
    unfold save; simp only [if_pos h2]
  have hs2 : (save st s mm).2.disk = aset st.disk s.key
      (FileLine.meta s.key s.created_at s.updated_at s.metadata 0
        :: (pyTakeLast s.messages mm).map FileLine.msg) := by
    unfold save; simp only [if_pos h2]
  have hs3 : (save st s mm).2.cache = aset st.cache s.key (save st s mm).1 := by
    unfold save; simp only [if_pos h2]
  refine ⟨?_, ?_, ?_, ?_, ?_⟩
  · rw [hs1, hmsgs]
  · rw [hs1, hmsgs]
    simp only [List.length_drop]
    omega
  · rw [hs1]
  · rw [hs2, alookup_aset_self, hmsgs]
  · rw [hs3, alookup_aset_self]

/-- A three-message session for the C5 witness. -/
def c5big : Session :=
  { key := "k5w", messages := [mUser, mAsst, mUser], created_at := "t0"
    updated_at := "t1", metadata := [], last_consolidated := 3 }

/-- Witness for the amended C5: limit 2 on a three-message session. -/
theorem claim5_witness :
    (save { disk := [], legacy := [], cache := [] } c5big 2).1.messages.length = 2 ∧
    (save { disk := [], legacy := [], cache := [] } c5big 2).1.last_consolidated = 0 := by
  have h := claim5_amended { disk := [], legacy := [], cache := [] } c5big 2
    (by decide) (by decide)
  exact ⟨h.2.1, h.2.2.1⟩

/-! ## Claim C6 -/

/-- Claim C6: saving a session whose message count is within the truncation
limit and reloading it by the same key yields identical `messages` (order and
content) and identical `metadata`. -/
theorem claim6 (st : SMState) (s : Session) (mm : Nat) (now : String)
    (h : s.messages.length ≤ mm) :
    ((smLoad (save st s mm).2 s.key now).1).map Session.messages =
      some s.messages ∧
    ((smLoad (save st s mm).2 s.key now).1).map Session.metadata =
      some s.metadata := by
  have hnc : ¬ (mm < s.messages.length) := by omega
  have hdisk : alookup (save st s mm).2.disk s.key =
      some (FileLine.meta s.key s.created_at s.updated_at s.metadata
          s.last_consolidated :: s.messages.map FileLine.msg) := by
    unfold save
    simp only [if_neg hnc]
    exact alookup_aset_self _ _ _
  unfold smLoad
  simp only [hdisk]
  rw [loadFile_save_shape]
  constructor <;> rfl

/-- A concrete session for the C6 witness. -/
def c6sess : Session :=
  { key := "k6", messages := [mUser, mAsst], created_at := "t0"
    updated_at := "t1", metadata := [("lang", "en")], last_consolidated := 1 }

/-- Witness for C6 at a concrete session. -/
theorem claim6_witness :
    ((smLoad (save { disk := [], legacy := [], cache := [] } c6sess 500).2
        c6sess.key "t2").1).map Session.messages = some c6sess.messages ∧
    ((smLoad (save { disk := [], legacy := [], cache := [] } c6sess 500).2
        c6sess.key "t2").1).map Session.metadata = some c6sess.metadata :=
  claim6 { disk := [], legacy := [], cache := [] } c6sess 500 "t2" (by decide)

/-! ## Claim C7 -/

/-- Initial manager state for the LRU scenario: key `"A"` has a session file
on disk, the legacy directory is empty, the cache is empty. -/
def c7st0 (fA : List FileLine) : SMState :=
  { disk := [("A", fA)], legacy := [], cache := [] }

/-- The state after `get_or_create` on `"A"`, `"B"`, `"C"` in order with cache
capacity 2. -/
def c7after3 (fA : List FileLine) (n1 n2 n3 : String) : SMState :=
  (get_or_create (get_or_create (get_or_create (c7st0 fA) "A" n1 2).2
    "B" n2 2).2 "C" n3 2).2

/-- Claim C7: with cache capacity 2, accessing `"A"`, `"B"`, `"C"` in order
evicts `"A"` (the least-recently-used entry) from the cache only: the cache
then holds exactly `"B"`, `"C"` in LRU order, `"A"`'s disk file is untouched,
and a later `get_or_create("A")` returns the session reloaded from that
unchanged file. -/
theorem claim7 (fA : List FileLine) (n1 n2 n3 n4 : String) :
    (c7after3 fA n1 n2 n3).cache.map Prod.fst = ["B", "C"] ∧
    alookup (c7after3 fA n1 n2 n3).cache "A" = none ∧
    alookup (c7after3 fA n1 n2 n3).disk "A" = some fA ∧
    (get_or_create (c7after3 fA n1 n2 n3) "A" n4 2).1 = loadFile "A" fA n4 := by
  have h3 : c7after3 fA n1 n2 n3 =
      { disk := [("A", fA)], legacy := []
        cache := [("B", freshSession "B" n2), ("C", freshSession "C" n3)] } := by
    simp [c7after3, c7st0, get_or_create, smLoad, alookup, aset, moveToEnd,
      aremove, freshSession]
  rw [h3]
  refine ⟨rfl, rfl, rfl, ?_⟩
  simp [get_or_create, smLoad, alookup, aset]

/-! ## Claim C10 -/

/-- Claim C10: `save` inserts the (possibly truncated) session into the cache
at its own key, leaves every other cache entry unchanged, and never evicts:
when the key was absent the cache simply grows by one entry, regardless of any
configured maximum (eviction happens only in `get_or_create`). -/
theorem claim10 (st : SMState) (s : Session) (mm : Nat) :
    alookup (save st s mm).2.cache s.key = some (save st s mm).1 ∧
    (∀ k, k ≠ s.key →
      alookup (save st s mm).2.cache k = alookup st.cache k) ∧
    ((alookup st.cache s.key).isSome →
      (save st s mm).2.cache.length = st.cache.length) ∧
    ((alookup st.cache s.key).isNone →
      (save st s mm).2.cache.length = st.cache.length + 1) ∧
    (∀ maxc : Nat, (alookup st.cache s.key).isNone → st.cache.length = maxc →
      maxc < (save st s mm).2.cache.length) := by
  refine ⟨?_, ?_, ?_, ?_, ?_⟩
  · exact alookup_aset_self _ _ _
  · intro k hk
    exact alookup_aset_ne _ _ _ _ hk
  · intro hs
    show (aset st.cache s.key _).length = st.cache.length
    rw [length_aset, if_pos hs]
  · intro hn
    show (aset st.cache s.key _).length = st.cache.length + 1
    rw [length_aset, if_neg (by simp_all)]
  · intro maxc hn hlen
    show maxc < (aset st.cache s.key _).length
    rw [length_aset, if_neg (by simp_all)]
    omega

def c10st : SMState :=
  { disk := [], legacy := [], cache := [("x", freshSession "x" "t0")] }

def c10sess : Session := freshSession "y" "t1"

/-- Witness for C10: saving a new key into a cache of size 1 keeps the other
entry and grows the cache to 2. -/
theorem claim10_witness :
    alookup (save c10st c10sess 500).2.cache c10sess.key =
      some (save c10st c10sess 500).1 ∧
    alookup (save c10st c10sess 500).2.cache "x" = alookup c10st.cache "x" ∧
    (save c10st c10sess 500).2.cache.length = c10st.cache.length + 1 := by
  have h := claim10 c10st c10sess 500
  exact ⟨h.1, h.2.1 "x" (by decide), h.2.2.2.1 (by decide)⟩

/-! ## Python-style string helpers

Re-implementations, by structural recursion over character lists, of the few
Python string operations the skills code uses, so that proofs can evaluate. -/

/-- Python `str.startswith(pfx)` as a prefix test on character lists. -/
def isPfx : List Char → List Char → Bool
  | [], _ => true
  | _ :: _, [] => false
  | a :: as, b :: bs => a == b && isPfx as bs

/-- Python `s.split(sep)` for a one-character separator; `"".split(sep)` is
`[""]`, exactly as in Python. -/
def splitCh (sep : Char) : List Char → List (List Char)
  | [] => [[]]
  | c :: cs =>
    match splitCh sep cs with
    | h :: t => if c = sep then [] :: h :: t else (c :: h) :: t
    | [] => [[c]]

/-- Python `s.strip()`. -/
def stripWs (l : List Char) : List Char :=
  ((l.dropWhile Char.isWhitespace).reverse.dropWhile Char.isWhitespace).reverse

/-- Python `sep.join(parts)`. -/
def joinCh (sep : List Char) : List (List Char) → List Char
  | [] => []
  | [x] => x
  | x :: y :: t => x ++ sep ++ joinCh sep (y :: t)

/-! ## A model of parsed YAML / JSON data

`yaml.safe_load` and `json.loads` are external libraries; the functions that
call them take the loader as a parameter returning a `Yaml` value (or an error
for a raised parse exception).  `Yaml` models the Python object the loader
hands back. -/

inductive Yaml where
  | ynull
  | ybool (b : Bool)
  | yint (n : Int)
  | ystr (s : String)
  | ylist (xs : List Yaml)
  | ydict (kvs : List (String × Yaml))

/-- Python truthiness of a loaded value (`None`, `False`, `0`, `""`, `[]` and
`{}` are falsy). -/
def yFalsy : Yaml → Bool
  | .ynull => true
  | .ybool b => !b
  | .yint n => n == 0
  | .ystr s => s == ""
  | .ylist xs => xs.isEmpty
  | .ydict kvs => kvs.isEmpty

/-- Python `for x in v`: lists iterate their items, strings their characters,
dicts their keys; anything else raises `TypeError`. -/
def yIter : Yaml → Except String (List Yaml)
  | .ylist xs => .ok xs
  | .ystr s => .ok (s.data.map (fun c => Yaml.ystr (String.mk [c])))
  | .ydict kvs => .ok (kvs.map (fun kv => Yaml.ystr kv.1))
  | _ => .error "TypeError"

/-- Python `v.get(k, d)`: only a dict has `.get`; on any other value the
attribute access raises `AttributeError`. -/
def pyGet (v : Yaml) (k : String) (d : Yaml) : Except String Yaml :=
  match v with
  | .ydict kvs => .ok ((alookup kvs k).getD d)
  | _ => .error "AttributeError"

/-! ## Skills data model (`src/sarathy/agent/skills.py`) -/

/-- The `SkillCommand` dataclass.  Its fields hold whatever objects the parsed
frontmatter supplied (`cmd.get("name", "")` performs no type check), so they
are `Yaml` values. -/
structure SkillCommand where
  name : Yaml
  description : Yaml
  help_text : Yaml
  skill_name : String

/-- The `SkillInfo` dataclass. -/
structure SkillInfo where
  name : String
  path : String
  source : String
  content : String
  commands : List SkillCommand

/-- The frontmatter-collection loop of `SkillManager._parse_commands`: gather
lines until a line whose `strip()` is `---` at an index greater than 0. -/
def fmCollect : List (List Char) → Nat → List (List Char)
  | [], _ => []
  | l :: ls, i =>
    if stripWs l = "---".data ∧ 0 < i then [] else l :: fmCollect ls (i + 1)

/-- Model of `SkillManager._parse_commands`.  Mirrors the Python control flow exactly:
only the `yaml.safe_load` call is guarded by `try/except` (a failed load
degrades to `{}`), while `data.get("commands", [])` and the iteration over the
result sit outside the guard and can raise. -/
def parse_commands (safeLoad : String → Except Unit Yaml) (content : String)
    (skill_name : String) : Except String (List SkillCommand) :=
  if !(isPfx "---".data content.data) then .ok []
  else
    let lines := splitCh '\n' content.data
    let fm_lines := fmCollect lines 0
    let frontmatter := String.mk (joinCh ['\n'] (fm_lines.drop 1))
    let data := match safeLoad frontmatter with
      | .error _ => Yaml.ydict []
      | .ok v => if yFalsy v then Yaml.ydict [] else v
    match pyGet data "commands" (Yaml.ylist []) with
    | .error e => .error e
    | .ok commands_data =>
      if yFalsy commands_data then .ok []
      else
        match yIter commands_data with
        | .error e => .error e
        | .ok items =>
          .ok (items.filterMap (fun cmd =>
            match cmd with
            | Yaml.ydict kvs => some
                { name := (alookup kvs "name").getD (Yaml.ystr "")
                  description := (alookup kvs "description").getD (Yaml.ystr "")
                  help_text := (alookup kvs "help").getD (Yaml.ystr "")
                  skill_name := skill_name }
            | _ => none))

/-- Model of `SkillManager._load_skills_from_dir`: a directory is the listing of its
subdirectories that contain a `SKILL.md`, as `(name, content)` pairs.  The
whole per-skill body is wrapped in `try/except`, so a skill whose command
parsing raises is skipped (with a warning), leaving any existing entry. -/
def load_skills_from_dir (safeLoad : String → Except Unit Yaml)
    (dirPath : String) (dir : List (String × String)) (source : String)
    (skills : List (String × SkillInfo)) : List (String × SkillInfo) :=
  match dir with
  | [] => skills
  | (nm, content) :: rest =>
    let skills' := match parse_commands safeLoad content nm with
      | .error _ => skills
      | .ok cmds => aset skills nm
          { name := nm, path := dirPath ++ "/" ++ nm ++ "/SKILL.md"
            source := source, content := content, commands := cmds }
    load_skills_from_dir safeLoad dirPath rest source skills'

/-- The three skill directories a `SkillManager` scans; `none` models a
directory that does not exist. -/
structure SkillDirs where
  global_skills : Option (List (String × String))
  workspace_skills : Option (List (String × String))
  builtin_skills : Option (List (String × String))
  global_path : String
  workspace_path : String
  builtin_path : String

/-- Model of `SkillManager._load_all_skills`: scan global, then workspace, then
builtin, each scan writing into the same skill map. -/
def load_all_skills (safeLoad : String → Except Unit Yaml) (d : SkillDirs) :
    List (String × SkillInfo) :=
  let m1 := match d.global_skills with
    | none => []
    | some dir => load_skills_from_dir safeLoad d.global_path dir "global" []
  let m2 := match d.workspace_skills with
    | none => m1
    | some dir => load_skills_from_dir safeLoad d.workspace_path dir "workspace" m1
  match d.builtin_skills with
  | none => m2
  | some dir => load_skills_from_dir safeLoad d.builtin_path dir "builtin" m2

/-! ## Claim C2 -/

theorem load_dir_not_mem (safeLoad : String → Except Unit Yaml)
    (dirPath : String) (dir : List (String × String)) (source : String)
    (skills : List (String × SkillInfo)) (nm : String)
    (h : nm ∉ dir.map Prod.fst) :
    alookup (load_skills_from_dir safeLoad dirPath dir source skills) nm =
      alookup skills nm := by
  induction dir generalizing skills with
  | nil => rfl
  | cons e rest ih =>
    obtain ⟨en, ec⟩ := e
    simp only [List.map_cons, List.mem_cons] at h
    push_neg at h
    obtain ⟨h1, h2⟩ := h
    unfold load_skills_from_dir
    cases hp : parse_commands safeLoad ec en with
    | error e0 => simp only [hp]; exact ih _ h2
    | ok cmds =>
      simp only [hp]
      rw [ih _ h2]
      exact alookup_aset_ne _ _ _ _ h1

theorem load_dir_mem (safeLoad : String → Except Unit Yaml)
    (dirPath : String) (dir : List (String × String)) (source : String)
    (nm c : String) (cmds : List SkillCommand)
    (hnd : (dir.map Prod.fst).Nodup) (hl : alookup dir nm = some c)
    (hp : parse_commands safeLoad c nm = .ok cmds) :
    ∀ skills,
      alookup (load_skills_from_dir safeLoad dirPath dir source skills) nm =
        some { name := nm, path := dirPath ++ "/" ++ nm ++ "/SKILL.md"
               source := source, content := c, commands := cmds } := by
  induction dir with
  | nil => intro skills; simp [alookup] at hl
  | cons e rest ih =>
    intro skills
    obtain ⟨en, ec⟩ := e
    simp only [List.map_cons, List.nodup_cons] at hnd
    obtain ⟨hn1, hn2⟩ := hnd
    by_cases he : en = nm
    · subst he
      have hc : ec = c := by
        have h0 := hl
        simp only [alookup, if_pos rfl] at h0
        exact Option.some.inj h0
      subst hc
      unfold load_skills_from_dir
      simp only [hp]
      rw [load_dir_not_mem _ _ _ _ _ _ hn1]
      exact alookup_aset_self _ _ _
    · have hl' : alookup rest nm = some c := by
        simpa [alookup, he] using hl
      unfold load_skills_from_dir
      cases hp2 : parse_commands safeLoad ec en with
      | error e0 => simp only [hp2]; exact ih hn2 hl' _
      | ok cmds2 => simp only [hp2]; exact ih hn2 hl' _

/-- Claim C2: the initial load scans global, workspace, builtin in that order,
each loaded skill unconditionally overwriting any existing same-named entry;
hence a name present in the builtin directory ends up with the builtin entry
(builtin overwrites workspace, which overwrites global), and a name absent
from builtin but present in workspace ends up with the workspace entry. -/
theorem claim2 (safeLoad : String → Except Unit Yaml) (d : SkillDirs)
    (nm : String) :
    (∀ b cb cmds, d.builtin_skills = some b → (b.map Prod.fst).Nodup →
      alookup b nm = some cb → parse_commands safeLoad cb nm = .ok cmds →
      alookup (load_all_skills safeLoad d) nm =
        some { name := nm, path := d.builtin_path ++ "/" ++ nm ++ "/SKILL.md"
               source := "builtin", content := cb, commands := cmds }) ∧
    (∀ w cw cmds, d.workspace_skills = some w → (w.map Prod.fst).Nodup →
      alookup w nm = some cw → parse_commands safeLoad cw nm = .ok cmds →
      (∀ b, d.builtin_skills = some b → nm ∉ b.map Prod.fst) →
      alookup (load_all_skills safeLoad d) nm =
        some { name := nm, path := d.workspace_path ++ "/" ++ nm ++ "/SKILL.md"
               source := "workspace", content := cw, commands := cmds }) := by
  constructor
  · intro b cb cmds hb hnd hl hp
    unfold load_all_skills
    rw [hb]
    exact load_dir_mem _ _ _ _ _ _ _ hnd hl hp _
  · intro w cw cmds hw hnd hl hp hnb
    unfold load_all_skills
    rw [hw]
    cases hb : d.builtin_skills with
    | none =>
      exact load_dir_mem _ _ _ _ _ _ _ hnd hl hp _
    | some b =>
      rw [load_dir_not_mem _ _ _ _ _ _ (hnb b hb)]
      exact load_dir_mem _ _ _ _ _ _ _ hnd hl hp _

/-- A loader stub: every `yaml.safe_load` call raises. -/
def c2sl : String → Except Unit Yaml := fun _ => Except.error ()

/-- One skill name `"s"` present in all three directories. -/
def c2dirs : SkillDirs :=
  { global_skills := some [("s", "G")], workspace_skills := some [("s", "W")]
    builtin_skills := some [("s", "B")], global_path := "g"
    workspace_path := "w", builtin_path := "b" }

/-- Witness for C2: with `"s"` in all three directories, the stored entry is
the builtin one. -/
theorem claim2_witness :
    alookup (load_all_skills c2sl c2dirs) "s" =
      some { name := "s", path := "b" ++ "/" ++ "s" ++ "/SKILL.md"
             source := "builtin", content := "B", commands := [] } :=
  (claim2 c2sl c2dirs "s").1 [("s", "B")] "B" [] rfl (by decide) rfl rfl

/-! ## Claim C9 -/

/-- A loader that agrees with PyYAML on the one document involved:
`yaml.safe_load("hello")` is the plain string `"hello"` (valid YAML, not a
mapping). -/
def c9yaml : String → Except Unit Yaml :=
  fun s => if s = "hello" then Except.ok (Yaml.ystr "hello") else Except.error ()

/-- Claim C9 (code bug): for a skill file whose frontmatter is the YAML scalar
`hello`, `yaml.safe_load` succeeds with a non-dict, so the unguarded
`data.get("commands", [])` raises `AttributeError`; `_load_skills_from_dir`
catches it and skips the skill entirely, contradicting the claim that
malformed frontmatter yields an empty command list with the skill loaded. -/
theorem claim9_bug :
    c9yaml "hello" = Except.ok (Yaml.ystr "hello") ∧
    parse_commands c9yaml "---\nhello\n---\nbody" "s" =
      Except.error "AttributeError" ∧
    alookup (load_skills_from_dir c9yaml "w" [("s", "---\nhello\n---\nbody")]
      "workspace" []) "s" = none :=
  ⟨rfl, rfl, rfl⟩

/-! ## `SkillsLoader` (static discovery) -/

/-- The two directories a `SkillsLoader` merges, with their path prefixes;
`none` models a directory that does not exist. -/
structure SkillsLoader where
  workspace_skills : Option (List (String × String))
  builtin_skills : Option (List (String × String))
  workspace_path : String
  builtin_path : String

/-- Model of `SkillsLoader.load_skill`: workspace first, then builtin. -/
def load_skill (L : SkillsLoader) (nm : String) : Option String :=
  match L.workspace_skills.bind (fun d2 => alookup d2 nm) with
  | some c => some c
  | none => L.builtin_skills.bind (fun d2 => alookup d2 nm)

/-- Index of the first occurrence of `needle` in a character list, if any. -/
def subIdx (needle : List Char) : List Char → Option Nat
  | [] => if isPfx needle [] then some 0 else none
  | h :: t =>
    if isPfx needle (h :: t) then some 0 else (subIdx needle t).map (· + 1)

/-- The regex `^---\n(.*?)\n---` of `get_skill_metadata` (DOTALL,
non-greedy): the content must begin with `---\n`, and the group runs to the
first later occurrence of `\n---`. -/
def parseFrontmatterBlock (content : String) : Option String :=
  if isPfx "---\n".data content.data then
    match subIdx "\n---".data (content.data.drop 4) with
    | some j => some (String.mk ((content.data.drop 4).take j))
    | none => none
  else none

/-- Python `value.strip("\"'")`: drop quote characters from both ends. -/
def stripQuotes (l : List Char) : List Char :=
  let q := fun c : Char => c == '"' || c == Char.ofNat 39
  ((l.dropWhile q).reverse.dropWhile q).reverse

/-- One line of the "simple YAML parsing" loop of `get_skill_metadata`:
`if ":" in line: key, value = line.split(":", 1); metadata[key.strip()] =
value.strip().strip("\"'")`. -/
def parseMetaLine (md : List (String × String)) (line : List Char) :
    List (String × String) :=
  match splitCh ':' line with
  | key :: r1 :: rrest =>
    aset md (String.mk (stripWs key))
      (String.mk (stripQuotes (stripWs (joinCh [':'] (r1 :: rrest)))))
  | _ => md

/-- Model of `SkillsLoader.get_skill_metadata`: shallow key/value scan of the
frontmatter block. -/
def get_skill_metadata (L : SkillsLoader) (nm : String) :
    Option (List (String × String)) :=
  match load_skill L nm with
  | none => none
  | some content =>
    if content = "" then none
    else if isPfx "---".data content.data then
      match parseFrontmatterBlock content with
      | some block => some ((splitCh '\n' block.data).foldl parseMetaLine [])
      | none => none
    else none

/-- Model of `SkillsLoader._get_skill_description`: the frontmatter `description` when
the metadata dict and the value are truthy, else the skill name. -/
def get_skill_description (L : SkillsLoader) (nm : String) : String :=
  match get_skill_metadata L nm with
  | none => nm
  | some md =>
    if md.isEmpty then nm
    else
      match alookup md "description" with
      | none => nm
      | some dsc => if dsc = "" then nm else dsc

/-- Model of `SkillsLoader._parse_sarathy_metadata`, with `json.loads` as a parameter
(`none` models a raised `JSONDecodeError`): a non-dict result degrades to
`{}`; otherwise take `data.get("sarathy", data.get("openclaw", {}))`. -/
def parse_sarathy_metadata (jsonLoads : String → Option Yaml) (raw : String) :
    Yaml :=
  match jsonLoads raw with
  | none => Yaml.ydict []
  | some v =>
    match v with
    | Yaml.ydict kvs =>
      match alookup kvs "sarathy" with
      | some x => x
      | none => (alookup kvs "openclaw").getD (Yaml.ydict [])
    | _ => Yaml.ydict []

/-- Model of `SkillsLoader._get_skill_meta`. -/
def get_skill_meta (L : SkillsLoader) (jsonLoads : String → Option Yaml)
    (nm : String) : Yaml :=
  let md := (get_skill_metadata L nm).getD []
  parse_sarathy_metadata jsonLoads ((alookup md "metadata").getD "")

/-- The `for b in requires.get("bins", [])` loop of `_check_requirements`:
`shutil.which` is the `which` oracle; a non-string item raises. -/
def checkBins (which : String → Bool) : List Yaml → Except String Bool
  | [] => .ok true
  | Yaml.ystr s :: ys => if which s then checkBins which ys else .ok false
  | _ :: _ => .error "TypeError"

/-- The `for env in requires.get("env", [])` loop of `_check_requirements`:
`envSet e` is the truthiness of `os.environ.get(e)` (set and non-empty). -/
def checkEnvs (envSet : String → Bool) : List Yaml → Except String Bool
  | [] => .ok true
  | Yaml.ystr s :: ys => if envSet s then checkEnvs envSet ys else .ok false
  | _ :: _ => .error "TypeError"

/-- Model of `SkillsLoader._check_requirements`. -/
def check_requirements (which envSet : String → Bool) (skill_meta : Yaml) :
    Except String Bool :=
  match pyGet skill_meta "requires" (Yaml.ydict []) with
  | .error e => .error e
  | .ok requires =>
    match pyGet requires "bins" (Yaml.ylist []) with
    | .error e => .error e
    | .ok bins =>
      match yIter bins with
      | .error e => .error e
      | .ok bitems =>
        match checkBins which bitems with
        | .error e => .error e
        | .ok false => .ok false
        | .ok true =>
          match pyGet requires "env" (Yaml.ylist []) with
          | .error e => .error e
          | .ok envs =>
            match yIter envs with
            | .error e => .error e
            | .ok eitems => checkEnvs envSet eitems

/-- The bins loop of `_get_missing_requirements`. -/
def missingBins (which : String → Bool) : List Yaml → Except String (List String)
  | [] => .ok []
  | Yaml.ystr s :: ys =>
    match missingBins which ys with
    | .error e => .error e
    | .ok rest => .ok (if which s then rest else ("CLI: " ++ s) :: rest)
  | _ :: _ => .error "TypeError"

/-- The env loop of `_get_missing_requirements`. -/
def missingEnvs (envSet : String → Bool) : List Yaml → Except String (List String)
  | [] => .ok []
  | Yaml.ystr s :: ys =>
    match missingEnvs envSet ys with
    | .error e => .error e
    | .ok rest => .ok (if envSet s then rest else ("ENV: " ++ s) :: rest)
  | _ :: _ => .error "TypeError"

/-- Model of `SkillsLoader._get_missing_requirements`: `", ".join(missing)`. -/
def get_missing_requirements (which envSet : String → Bool) (skill_meta : Yaml) :
    Except String String :=
  match pyGet skill_meta "requires" (Yaml.ydict []) with
  | .error e => .error e
  | .ok requires =>
    match pyGet requires "bins" (Yaml.ylist []) with
    | .error e => .error e
    | .ok bins =>
      match yIter bins with
      | .error e => .error e
      | .ok bitems =>
        match missingBins which bitems with
        | .error e => .error e
        | .ok mb =>
          match pyGet requires "env" (Yaml.ylist []) with
          | .error e => .error e
          | .ok envs =>
            match yIter envs with
            | .error e => .error e
            | .ok eitems =>
              match missingEnvs envSet eitems with
              | .error e => .error e
              | .ok ms =>
                .ok (String.mk (joinCh ", ".data ((mb ++ ms).map String.data)))

/-- The dicts `list_skills` returns. -/
structure SkillEntry where
  name : String
  path : String
  source : String
deriving Repr, DecidableEq

/-- The scan part of `SkillsLoader.list_skills`: workspace entries first, then
builtin entries whose name is not already present (first-match-wins by
priority tier). -/
def list_skills_all (L : SkillsLoader) : List SkillEntry :=
  let skills := match L.workspace_skills with
    | none => []
    | some d2 => d2.foldl (fun acc e =>
        acc ++ [{ name := e.1
                  path := L.workspace_path ++ "/" ++ e.1 ++ "/SKILL.md"
                  source := "workspace" }]) []
  match L.builtin_skills with
  | none => skills
  | some d2 => d2.foldl (fun acc e =>
      if acc.any (fun s => s.name == e.1) then acc
      else acc ++ [{ name := e.1
                     path := L.builtin_path ++ "/" ++ e.1 ++ "/SKILL.md"
                     source := "builtin" }]) skills

/-- The filtering comprehension of `list_skills(filter_unavailable=True)`;
a raised `AttributeError`/`TypeError` propagates out of the comprehension. -/
def filterChecked (L : SkillsLoader) (which envSet : String → Bool)
    (jsonLoads : String → Option Yaml) :
    List SkillEntry → Except String (List SkillEntry)
  | [] => .ok []
  | s :: ss =>
    match check_requirements which envSet (get_skill_meta L jsonLoads s.name) with
    | .error e => .error e
    | .ok b =>
      match filterChecked L which envSet jsonLoads ss with
      | .error e => .error e
      | .ok rest => .ok (if b then s :: rest else rest)

/-- Model of `SkillsLoader.list_skills`. -/
def list_skills (L : SkillsLoader) (which envSet : String → Bool)
    (jsonLoads : String → Option Yaml) (filter_unavailable : Bool) :
    Except String (List SkillEntry) :=
  if filter_unavailable then
    filterChecked L which envSet jsonLoads (list_skills_all L)
  else .ok (list_skills_all L)

/-- Replace one character by a string, Python `s.replace(c, rep)`. -/
def replCh (c : Char) (rep : List Char) : List Char → List Char
  | [] => []
  | x :: xs => (if x == c then rep else [x]) ++ replCh c rep xs

/-- The `escape_xml` closure of `build_skills_summary`:
`s.replace("&", "&amp;").replace("<", "&lt;").replace(">", "&gt;")`. -/
def escape_xml (s : String) : String :=
  String.mk (replCh '>' "&gt;".data (replCh '<' "&lt;".data
    (replCh '&' "&amp;".data s.data)))

/-- The lines `build_skills_summary` emits for one skill.  Note that `name`,
`description` and the missing-requirements text pass through `escape_xml`,
while the location (`path = s["path"]`) is interpolated verbatim. -/
def skillBlock (L : SkillsLoader) (which envSet : String → Bool)
    (jsonLoads : String → Option Yaml) (s : SkillEntry) :
    Except String (List String) :=
  let nm := escape_xml s.name
  let dsc := escape_xml (get_skill_description L s.name)
  let skill_meta := get_skill_meta L jsonLoads s.name
  match check_requirements which envSet skill_meta with
  | .error e => .error e
  | .ok available =>
    let head := ["  <skill available=\"" ++
        (if available then "true" else "false") ++ "\">",
      "    <name>" ++ nm ++ "</name>",
      "    <description>" ++ dsc ++ "</description>",
      "    <location>" ++ s.path ++ "</location>"]
    if available then .ok (head ++ ["  </skill>"])
    else
      match get_missing_requirements which envSet skill_meta with
      | .error e => .error e
      | .ok missing =>
        .ok (head ++ (if missing = "" then [] else
          ["    <requires>" ++ escape_xml missing ++ "</requires>"]) ++
          ["  </skill>"])

/-- The skill loop of `build_skills_summary`, flattened. -/
def allBlocks (L : SkillsLoader) (which envSet : String → Bool)
    (jsonLoads : String → Option Yaml) :
    List SkillEntry → Except String (List String)
  | [] => .ok []
  | s :: ss =>
    match skillBlock L which envSet jsonLoads s with
    | .error e => .error e
    | .ok bl =>
      match allBlocks L which envSet jsonLoads ss with
      | .error e => .error e
      | .ok rest => .ok (bl ++ rest)

/-- Model of `SkillsLoader.build_skills_summary`. -/
def build_skills_summary (L : SkillsLoader) (which envSet : String → Bool)
    (jsonLoads : String → Option Yaml) : Except String String :=
  if (list_skills_all L).isEmpty then .ok ""
  else
    match allBlocks L which envSet jsonLoads (list_skills_all L) with
    | .error e => .error e
    | .ok blocks =>
      .ok (String.mk (joinCh ['\n']
        ((["<skills>"] ++ blocks ++ ["</skills>"]).map String.data)))

/-! ## Claim C3 -/

/-- A workspace with one skill whose directory name contains `<`; its path
therefore contains `<` as well. -/
def c3L : SkillsLoader :=
  { workspace_skills := some [("a<b", "hello")], builtin_skills := none
    workspace_path := "ws", builtin_path := "bi" }

/-- Claim C3 counterexample: in the manifest, the `<location>` text is the raw
path `ws/a<b/SKILL.md` — `escape_xml` is applied to the name, the description
and the missing-requirements text, but not to the location, so a path
containing `<` is emitted unescaped. -/
theorem claim3_counterexample :
    build_skills_summary c3L (fun _ => true) (fun _ => true) (fun _ => none) =
      Except.ok ("<skills>\n  <skill available=\"true\">\n    <name>a&lt;b</name>\n    <description>a&lt;b</description>\n    <location>ws/a<b/SKILL.md</location>\n  </skill>\n</skills>") ∧
    escape_xml "ws/a<b/SKILL.md" ≠ "ws/a<b/SKILL.md" := by
  exact ⟨rfl, by decide⟩

theorem allBlocks_mem (L : SkillsLoader) (which envSet : String → Bool)
    (jsonLoads : String → Option Yaml) (l : List SkillEntry) (s : SkillEntry)
    (hs : s ∈ l) (blocks : List String)
    (hb : allBlocks L which envSet jsonLoads l = .ok blocks)
    (bl : List String) (hsb : skillBlock L which envSet jsonLoads s = .ok bl) :
    ∀ x ∈ bl, x ∈ blocks := by
  induction l generalizing blocks with
  | nil => cases hs
  | cons t ts ih =>
    unfold allBlocks at hb
    cases htb : skillBlock L which envSet jsonLoads t with
    | error e => simp only [htb] at hb; cases hb
    | ok blt =>
      simp only [htb] at hb
      cases hts : allBlocks L which envSet jsonLoads ts with
      | error e => simp only [hts] at hb; cases hb
      | ok rest =>
        simp only [hts] at hb
        injection hb with hb
        subst hb
        rcases List.mem_cons.mp hs with h | h
        · subst h
          rw [htb] at hsb
          injection hsb with hsb
          subst hsb
          intro x hx
          exact List.mem_append_left _ hx
        · intro x hx
          exact List.mem_append_right _ (ih h _ hts x hx)

/-- Claim C3 (amended): in every block the capability manifest emits for a
skill — any loader, any metadata, available or not — the skill name and the
description appear XML-escaped, the location is interpolated verbatim with no
escaping, and when the skill is unavailable and its missing-requirements text
is non-empty, the `<requires>` element carries that text XML-escaped; every
line of the block appears in the full manifest's line list. -/
theorem claim3_amended (L : SkillsLoader) (which envSet : String → Bool)
    (jsonLoads : String → Option Yaml) (s : SkillEntry) (bl : List String)
    (hsb : skillBlock L which envSet jsonLoads s = .ok bl) :
    ("    <name>" ++ escape_xml s.name ++ "</name>") ∈ bl ∧
    ("    <description>" ++ escape_xml (get_skill_description L s.name) ++
      "</description>") ∈ bl ∧
    ("    <location>" ++ s.path ++ "</location>") ∈ bl ∧
    (∀ m, check_requirements which envSet (get_skill_meta L jsonLoads s.name) =
        .ok false →
      get_missing_requirements which envSet (get_skill_meta L jsonLoads s.name) =
        .ok m → m ≠ "" →
      ("    <requires>" ++ escape_xml m ++ "</requires>") ∈ bl) ∧
    (∀ blocks, s ∈ list_skills_all L →
      allBlocks L which envSet jsonLoads (list_skills_all L) = .ok blocks →
      ∀ x ∈ bl, x ∈ blocks) := by
  have hsb0 := hsb
  simp only [skillBlock] at hsb
  cases hchk : check_requirements which envSet (get_skill_meta L jsonLoads s.name) with
  | error e => simp only [hchk] at hsb; cases hsb
  | ok available =>
    simp only [hchk] at hsb
    cases available with
    | true =>
      rw [if_pos rfl] at hsb
      injection hsb with hsb
      subst hsb
      refine ⟨by simp, by simp, by simp, ?_, ?_⟩
      · intro m hf hm hne
        injection hf with hf
        cases hf
      · intro blocks hsl hb x hx
        exact allBlocks_mem L which envSet jsonLoads _ s hsl blocks hb _ hsb0 x hx
    | false =>
      rw [if_neg (by simp)] at hsb
      cases hmiss : get_missing_requirements which envSet
          (get_skill_meta L jsonLoads s.name) with
      | error e => simp only [hmiss] at hsb; cases hsb
      | ok missing =>
        simp only [hmiss] at hsb
        by_cases hms : missing = ""
        · rw [if_pos hms] at hsb
          injection hsb with hsb
          subst hsb
          refine ⟨by simp, by simp, by simp, ?_, ?_⟩
          · intro m hf hm hne
            injection hm with hm
            exact absurd (by rw [← hm]; exact hms) hne
          · intro blocks hsl hb x hx
            exact allBlocks_mem L which envSet jsonLoads _ s hsl blocks hb _ hsb0
              x hx
        · rw [if_neg hms] at hsb
          injection hsb with hsb
          subst hsb
          refine ⟨by simp, by simp, by simp, ?_, ?_⟩
          · intro m hf hm hne
            injection hm with hm
            subst hm
            simp
          · intro blocks hsl hb x hx
            exact allBlocks_mem L which envSet jsonLoads _ s hsl blocks hb _ hsb0
              x hx

/-- The entry `list_skills_all` produces for the C3 loader. -/
def c3entry : SkillEntry :=
  { name := "a<b", path := "ws/a<b/SKILL.md", source := "workspace" }

/-- The block `skillBlock` emits for that available skill: name and
description escaped, location verbatim. -/
def c3ablock : List String :=
  ["  <skill available=\"true\">",
   "    <name>a&lt;b</name>",
   "    <description>a&lt;b</description>",
   "    <location>ws/a<b/SKILL.md</location>",
   "  </skill>"]

/-- For the unavailable half of the C3 witness, a `json.loads` oracle whose
`sarathy` object requires the binary `my<tool`, so the missing-requirements
text itself contains `<`. -/
def c3json : String → Option Yaml := fun raw =>
  if raw = "C3JSON" then
    some (Yaml.ydict [("sarathy", Yaml.ydict [("requires", Yaml.ydict
      [("bins", Yaml.ylist [Yaml.ystr "my<tool"])])])])
  else none

def c3uL : SkillsLoader :=
  { workspace_skills := some [("net", "---\nmetadata: C3JSON\n---\nbody")]
    builtin_skills := none, workspace_path := "wsu", builtin_path := "biu" }

def c3uentry : SkillEntry :=
  { name := "net", path := "wsu/net/SKILL.md", source := "workspace" }

/-- The block `skillBlock` emits for that unavailable skill: the
missing-requirements text `CLI: my<tool` appears XML-escaped. -/
def c3ublock : List String :=
  ["  <skill available=\"false\">",
   "    <name>net</name>",
   "    <description>net</description>",
   "    <location>wsu/net/SKILL.md</location>",
   "    <requires>CLI: my&lt;tool</requires>",
   "  </skill>"]

/-- Witness for the amended C3 at two concrete loaders: an available skill
whose name and path contain `<` (escaped name, verbatim location), and an
unavailable skill whose missing-requirements text contains `<` (escaped in
`<requires>`). -/
theorem claim3_witness :
    ("    <name>" ++ escape_xml c3entry.name ++ "</name>") ∈ c3ablock ∧
    ("    <location>" ++ c3entry.path ++ "</location>") ∈ c3ablock ∧
    ("    <description>" ++
      escape_xml (get_skill_description c3uL c3uentry.name) ++
      "</description>") ∈ c3ublock ∧
    ("    <requires>" ++ escape_xml "CLI: my<tool" ++ "</requires>") ∈
      c3ublock := by
  have h1 := claim3_amended c3L (fun _ => true) (fun _ => true) (fun _ => none)
    c3entry c3ablock rfl
  have h2 := claim3_amended c3uL (fun _ => false) (fun _ => true) c3json
    c3uentry c3ublock rfl
  exact ⟨h1.1, h1.2.2.1, h2.2.1,
    h2.2.2.2.1 "CLI: my<tool" rfl rfl (by decide)⟩

/-! ## Claim C8 -/

/-- A well-formed skill metadata object declaring `requires.bins` and
`requires.env` lists of names, as the spec's requirement model describes. -/
def wfMeta (bins env : List String) : Yaml :=
  Yaml.ydict [("requires", Yaml.ydict
    [("bins", Yaml.ylist (bins.map Yaml.ystr)),
     ("env", Yaml.ylist (env.map Yaml.ystr))])]

theorem checkBins_strs (which : String → Bool) (bins : List String) :
    checkBins which (bins.map Yaml.ystr) = .ok (bins.all which) := by
  induction bins with
  | nil => rfl
  | cons b bs ih => by_cases hb : which b <;> simp [checkBins, hb, ih]

theorem checkEnvs_strs (envSet : String → Bool) (env : List String) :
    checkEnvs envSet (env.map Yaml.ystr) = .ok (env.all envSet) := by
  induction env with
  | nil => rfl
  | cons b bs ih => by_cases hb : envSet b <;> simp [checkEnvs, hb, ih]

theorem missingBins_strs (which : String → Bool) (bins : List String) :
    missingBins which (bins.map Yaml.ystr) =
      .ok ((bins.filter (fun b => !which b)).map (fun b => "CLI: " ++ b)) := by
  induction bins with
  | nil => rfl
  | cons b bs ih =>
    by_cases hb : which b <;> simp [missingBins, ih, hb, List.filter_cons]

theorem missingEnvs_strs (envSet : String → Bool) (env : List String) :
    missingEnvs envSet (env.map Yaml.ystr) =
      .ok ((env.filter (fun e => !envSet e)).map (fun e => "ENV: " ++ e)) := by
  induction env with
  | nil => rfl
  | cons b bs ih =>
    by_cases hb : envSet b <;> simp [missingEnvs, ih, hb, List.filter_cons]

theorem check_requirements_wf (which envSet : String → Bool)
    (bins env : List String) :
    check_requirements which envSet (wfMeta bins env) =
      .ok (bins.all which && env.all envSet) := by
  cases hba : bins.all which <;>
    simp [check_requirements, wfMeta, pyGet, alookup, yIter, checkBins_strs,
      checkEnvs_strs, hba]

theorem get_missing_wf (which envSet : String → Bool) (bins env : List String) :
    get_missing_requirements which envSet (wfMeta bins env) =
      .ok (String.mk (joinCh ", ".data
        (((bins.filter (fun b => !which b)).map (fun b => "CLI: " ++ b) ++
          (env.filter (fun e => !envSet e)).map (fun e => "ENV: " ++ e)).map
            String.data))) := by
  simp [get_missing_requirements, wfMeta, pyGet, alookup, yIter,
    missingBins_strs, missingEnvs_strs]

theorem joinCh_cons_ne_nil (sep : List Char) (x : List Char)
    (xs : List (List Char)) (hx : x ≠ []) : joinCh sep (x :: xs) ≠ [] := by
  cases xs <;> simp [joinCh, hx]

/-- When the availability check fails, the missing-requirements text is a
non-empty string. -/
theorem missing_wf_ne (which envSet : String → Bool) (bins env : List String)
    (h : (bins.all which && env.all envSet) = false) :
    ∃ m, get_missing_requirements which envSet (wfMeta bins env) = .ok m ∧
      m ≠ "" := by
  refine ⟨_, get_missing_wf which envSet bins env, ?_⟩
  have hne : ((bins.filter (fun b => !which b)).map (fun b => "CLI: " ++ b) ++
      (env.filter (fun e => !envSet e)).map (fun e => "ENV: " ++ e)) ≠ [] := by
    rcases Bool.and_eq_false_iff.mp h with hb | he
    · obtain ⟨b, hbm, hbf⟩ := List.all_eq_false.mp hb
      have hfil : b ∈ bins.filter (fun b => !which b) :=
        List.mem_filter.mpr ⟨hbm, by simp [Bool.not_eq_true] at hbf; simp [hbf]⟩
      exact List.ne_nil_of_mem (List.mem_append.mpr
        (Or.inl (List.mem_map_of_mem _ hfil)))
    · obtain ⟨e, hem, hef⟩ := List.all_eq_false.mp he
      have hfil : e ∈ env.filter (fun e => !envSet e) :=
        List.mem_filter.mpr ⟨hem, by simp [Bool.not_eq_true] at hef; simp [hef]⟩
      exact List.ne_nil_of_mem (List.mem_append.mpr
        (Or.inr (List.mem_map_of_mem _ hfil)))
  obtain ⟨q, qs, hq⟩ := List.exists_cons_of_ne_nil hne
  have hqm : q ∈ ((bins.filter (fun b => !which b)).map (fun b => "CLI: " ++ b) ++
      (env.filter (fun e => !envSet e)).map (fun e => "ENV: " ++ e)) := by
    rw [hq]; exact List.mem_cons_self _ _
  have hqd : q.data ≠ [] := by
    rcases List.mem_append.mp hqm with hql | hqr
    · obtain ⟨b, _, hbq⟩ := List.mem_map.mp hql
      rw [← hbq]
      intro hc
      have h2 := congrArg List.length hc
      rw [String.data_append] at h2
      simp at h2
    · obtain ⟨e, _, heq⟩ := List.mem_map.mp hqr
      rw [← heq]
      intro hc
      have h2 := congrArg List.length hc
      rw [String.data_append] at h2
      simp at h2
  rw [hq]
  intro hc
  have hd := congrArg String.data hc
  simp only [List.map_cons] at hd
  exact joinCh_cons_ne_nil ", ".data q.data (qs.map String.data) hqd hd

theorem filterChecked_spec (L : SkillsLoader) (which envSet : String → Bool)
    (jsonLoads : String → Option Yaml) (avail : SkillEntry → Bool)
    (l : List SkillEntry)
    (h : ∀ s ∈ l, check_requirements which envSet
      (get_skill_meta L jsonLoads s.name) = .ok (avail s)) :
    filterChecked L which envSet jsonLoads l = .ok (l.filter avail) := by
  induction l with
  | nil => rfl
  | cons t ts ih =>
    have ht := h t (List.mem_cons_self t ts)
    have hts := ih (fun s hs => h s (List.mem_cons_of_mem _ hs))
    unfold filterChecked
    simp only [ht, hts]
    by_cases hb : avail t <;> simp [List.filter_cons, hb]

/-- Claim C8: with `which` the resolution oracle of `shutil.which` and
`envSet e` the truthiness of `os.environ.get(e)` (set to a non-empty value):
(1) a skill declaring `requires.bins` and `requires.env` is available iff
every declared binary resolves and every declared variable is set;
(2) `list_skills(filter_unavailable=True)` returns exactly the available
skills, in order; (3) a failed check always produces a non-empty
missing-requirements text; (4) an unavailable skill's manifest block carries
`available="false"` and a populated `<requires>` element with the escaped
missing-requirements text. -/
theorem claim8 :
    (∀ (which envSet : String → Bool) (bins env : List String),
      check_requirements which envSet (wfMeta bins env) =
        .ok (bins.all which && env.all envSet)) ∧
    (∀ (L : SkillsLoader) (which envSet : String → Bool)
      (jsonLoads : String → Option Yaml) (avail : SkillEntry → Bool),
      (∀ s ∈ list_skills_all L,
        check_requirements which envSet (get_skill_meta L jsonLoads s.name) =
          .ok (avail s)) →
      list_skills L which envSet jsonLoads true =
        .ok ((list_skills_all L).filter avail)) ∧
    (∀ (which envSet : String → Bool) (bins env : List String),
      (bins.all which && env.all envSet) = false →
      ∃ m, get_missing_requirements which envSet (wfMeta bins env) = .ok m ∧
        m ≠ "") ∧
    (∀ (L : SkillsLoader) (which envSet : String → Bool)
      (jsonLoads : String → Option Yaml) (s : SkillEntry)
      (bins env : List String),
      get_skill_meta L jsonLoads s.name = wfMeta bins env →
      (bins.all which && env.all envSet) = false →
      ∃ bl m, skillBlock L which envSet jsonLoads s = .ok bl ∧
        get_missing_requirements which envSet (wfMeta bins env) = .ok m ∧
        ("  <skill available=\"" ++ "false" ++ "\">") ∈ bl ∧
        ("    <requires>" ++ escape_xml m ++ "</requires>") ∈ bl) := by
  refine ⟨check_requirements_wf, ?_, missing_wf_ne, ?_⟩
  · intro L which envSet jsonLoads avail h
    exact filterChecked_spec L which envSet jsonLoads avail _ h
  · intro L which envSet jsonLoads s bins env hm hfalse
    obtain ⟨m, hget, hne⟩ := missing_wf_ne which envSet bins env hfalse
    have hsb : skillBlock L which envSet jsonLoads s = .ok
        (["  <skill available=\"" ++ "false" ++ "\">",
          "    <name>" ++ escape_xml s.name ++ "</name>",
          "    <description>" ++ escape_xml (get_skill_description L s.name) ++
            "</description>",
          "    <location>" ++ s.path ++ "</location>"] ++
         ["    <requires>" ++ escape_xml m ++ "</requires>"] ++
         ["  </skill>"]) := by
      simp only [skillBlock, hm, check_requirements_wf, hfalse, hget]
      simp [hne]
    refine ⟨_, m, hsb, hget, ?_, ?_⟩
    · simp
    · simp

/-- A loader for the C8 witness: `json.loads` returns, for the frontmatter's
`metadata` value, a `sarathy` object requiring the binary `mytool`. -/
def c8json : String → Option Yaml := fun raw =>
  if raw = "METAJSON" then some (Yaml.ydict [("sarathy", wfMeta ["mytool"] [])])
  else none

def c8L : SkillsLoader :=
  { workspace_skills := some [("s8", "---\nmetadata: METAJSON\n---\nbody")]
    builtin_skills := none, workspace_path := "w8", builtin_path := "bi" }

def c8entry : SkillEntry :=
  { name := "s8", path := "w8/s8/SKILL.md", source := "workspace" }

/-- Witness for C8 with `which` resolving nothing: the skill requiring
`mytool` is unavailable, is filtered out of `list_skills(True)`, and its
manifest block carries `available="false"` and a populated `<requires>`. -/
theorem claim8_witness :
    check_requirements (fun _ => false) (fun _ => true) (wfMeta ["mytool"] []) =
      Except.ok false ∧
    list_skills c8L (fun _ => false) (fun _ => true) c8json true =
      Except.ok ((list_skills_all c8L).filter (fun _ => false)) ∧
    (∃ m, get_missing_requirements (fun _ => false) (fun _ => true)
      (wfMeta ["mytool"] []) = Except.ok m ∧ m ≠ "") ∧
    (∃ bl m, skillBlock c8L (fun _ => false) (fun _ => true) c8json c8entry =
        Except.ok bl ∧
      get_missing_requirements (fun _ => false) (fun _ => true)
        (wfMeta ["mytool"] []) = Except.ok m ∧
      ("  <skill available=\"" ++ "false" ++ "\">") ∈ bl ∧
      ("    <requires>" ++ escape_xml m ++ "</requires>") ∈ bl) := by
  refine ⟨?_, ?_, ?_, ?_⟩
  · exact claim8.1 (fun _ => false) (fun _ => true) ["mytool"] []
  · exact claim8.2.1 c8L (fun _ => false) (fun _ => true) c8json (fun _ => false)
      (by
        intro s hs
        have hs2 : s = c8entry := List.mem_singleton.mp hs
        subst hs2
        rfl)
  · exact claim8.2.2.1 (fun _ => false) (fun _ => true) ["mytool"] [] rfl
  · exact claim8.2.2.2 c8L (fun _ => false) (fun _ => true) c8json c8entry
      ["mytool"] [] rfl rfl

end Sarathi
